import Mathlib

/-!
Verification of the nonce-extraction core of the zartrux-miner repository
(file: src/ia-modules/analytics/lmdb_nonce_extractor.py).

The Python module walks an LMDB block store backwards from the newest
record, decodes a version-dependent binary header, deduplicates records by
content hash through a bounded deque, and appends decoded entries to a CSV
ledger, rotating the ledger to a timestamped backup on write failure.

Shallow embedding conventions:
* Record bytes are lists of naturals (each byte a value below 256).
* The sha256 hex digest computed by the external hashlib library is modeled
  as an explicit digest-function parameter of the walker; the walker's
  control flow depends only on equality of digests.  Instantiating the
  parameter with an injective function models the collision-free regime in
  which sha256 operates.
* An LMDB read at a cursor position either yields the record bytes or
  raises lmdb.Error; a position is therefore modeled as an optional byte
  list, with none standing for a read that raises.
* Wall-clock fields of a CSV row (the ISO timestamp taken from
  datetime.now and the derived hex string of the nonce) are omitted from
  the embedded entry record: they are derived from the clock or from the
  nonce and play no role in any verified property.
-/

/-! ## Configuration (the CONFIG dictionary of the source) -/

/-- CONFIG max_blocks: maximum number of newly accepted records per run. -/
def CONFIG_max_blocks : Nat := 40000

/-- CONFIG update_interval: seconds between scheduled extraction runs. -/
def CONFIG_update_interval : Nat := 3600

/-- CONFIG max_retries: declared retry bound.  This key is defined in the
CONFIG dictionary of the source but is never read anywhere in the module. -/
def CONFIG_max_retries : Nat := 5

/-- CONFIG hash_window: capacity of the processed-hashes deque. -/
def CONFIG_hash_window : Nat := 1000

/-- CONFIG nonce_offsets: the integer-keyed part of the version-to-offset
table, as a partial map on the major-version byte. -/
def nonce_offsets (v : Nat) : Option Nat :=
  if v = 1 then some 43
  else if v = 2 then some 47
  else if v = 3 then some 51
  else if v = 4 then some 55
  else none

/-- CONFIG nonce_offsets default entry. -/
def nonce_offsets_default : Nat := 43

/-- Offset lookup performed by parse_block:
CONFIG nonce_offsets .get(major_version, CONFIG nonce_offsets default). -/
def getOffset (v : Nat) : Nat :=
  (nonce_offsets v).getD nonce_offsets_default

/-! ## Header Decoder (NonceExtractor.parse_block) -/

/-- Decoded header fields, the dictionary parse_block builds. -/
structure ParsedBlock where
  nonce : Nat
  major_version : Nat
  minor_version : Nat
  timestamp : Nat
  size : Nat
deriving Repr, DecidableEq

/-- Little-endian 32-bit read: value of struct.unpack of four bytes with
format <I. -/
def le32 (b0 b1 b2 b3 : Nat) : Nat :=
  b0 + 256 * b1 + 65536 * b2 + 16777216 * b3

/-- NonceExtractor.parse_block.  Reads major_version from byte 0, looks up
the nonce offset with fallback to the default, then reads the nonce
(4 bytes little-endian at the offset), minor_version (byte 1) and the block
timestamp (4 bytes little-endian at bytes 2..5).  Any slice shorter than
the width struct.unpack expects raises struct.error, which the source
catches and converts to a None result (the corrupt-record branch); the
length tests below enumerate exactly those failure conditions. -/
def parse_block (data : List Nat) : Option ParsedBlock :=
  if data.length < 1 then none
  else if data.length < getOffset (data.getD 0 0) + 4 then none
  else if data.length < 6 then none
  else some {
    nonce := le32 (data.getD (getOffset (data.getD 0 0)) 0)
      (data.getD (getOffset (data.getD 0 0) + 1) 0)
      (data.getD (getOffset (data.getD 0 0) + 2) 0)
      (data.getD (getOffset (data.getD 0 0) + 3) 0),
    major_version := data.getD 0 0,
    minor_version := data.getD 1 0,
    timestamp := le32 (data.getD 2 0) (data.getD 3 0)
      (data.getD 4 0) (data.getD 5 0),
    size := data.length }

/-! ## Recent-Hash Window (the processed_hashes deque) -/

/-- Append to a deque created with maxlen K, as used for processed_hashes:
the new element goes to the right and, once the capacity K is exceeded, the
leftmost (least recently inserted) element is discarded.  For a deque that
only ever receives appends this is exactly a drop of the overflow from the
left. -/
def dequeAppend {α : Type} (K : Nat) (w : List α) (x : α) : List α :=
  (w ++ [x]).drop (w.length + 1 - K)

/-! ## LedgerEntry rows -/

/-- A ledger row as built inside process_blocks.  The wall-clock timestamp
and the nonce_hex string (both derived, see the file header) are omitted;
accepted and predicted_by_ia are the literal constants 0 the source writes. -/
structure Entry where
  nonce : Nat
  major_ver : Nat
  minor_ver : Nat
  block_timestamp : Nat
  block_size : Nat
  block_hash : List Nat
  accepted : Nat
  predicted_by_ia : Nat
deriving Repr, DecidableEq

/-- The row appended to new_entries for a parsed block with digest h. -/
def mkEntry (p : ParsedBlock) (h : List Nat) : Entry :=
  { nonce := p.nonce, major_ver := p.major_version,
    minor_ver := p.minor_version, block_timestamp := p.timestamp,
    block_size := p.size, block_hash := h,
    accepted := 0, predicted_by_ia := 0 }

/-! ## Store Cursor Walker (NonceExtractor.process_blocks) -/

/-- Outcome of cursor.value() at one store position: some bytes on success,
none when the read raises lmdb.Error.  A retried read of the same position
yields the same outcome, so none models an always-failing read. -/
abbrev ReadRec := Option (List Nat)

/-- The mutable state of one process_blocks run.  window is the
processed_hashes deque, entries is new_entries, block_count and retries are
the loop counters and running is the cooperative cancellation flag.  Two
instrumentation fields record observable effects: iters counts executed
loop iterations (each performing one cursor.value() read attempt) and
sleeps logs the durations passed to time.sleep in the error branch. -/
structure WalkState where
  window : List (List Nat)
  entries : List Entry
  block_count : Nat
  retries : Nat
  running : Bool
  iters : Nat
  sleeps : List Nat
deriving Repr, DecidableEq

/-- The state at the start of a run from a fresh NonceExtractor. -/
def initState : WalkState :=
  { window := [], entries := [], block_count := 0, retries := 0,
    running := true, iters := 0, sleeps := [] }

/-- NonceExtractor.process_blocks.  The argument list holds the read
outcomes of the store positions in traversal order (cursor.last() first,
then each cursor.prev() position); hsh is the digest function (sha256 in
the source), K the window capacity and maxBlocks the per-run record cap.

Loop body, following the source line by line: while running, block_count
below the cap and retries below 3, read the current record.  A raising
read increments retries and sleeps 2 ^ retries without moving the cursor.
A record whose digest is already in the window increments retries and
continues without moving the cursor, so the same record is re-read.
Otherwise the record is parsed; on success a row is appended, the digest
enters the window, block_count increments and retries resets; in either
case the cursor then moves on (an exhausted cursor breaks the loop, which
is observationally the same as recursing on the empty remainder).  An
empty position list models an empty store: no entries are produced, as in
the source, whose single iteration on the unpositioned cursor parses the
empty byte string as corrupt and breaks. -/
def process_blocks (hsh : List Nat → List Nat) (K maxBlocks : Nat) :
    List ReadRec → WalkState → WalkState
  | rs, s =>
    if hc : s.running = true ∧ s.block_count < maxBlocks ∧ s.retries < 3 then
      match rs with
      | [] => s
      | none :: rest =>
        process_blocks hsh K maxBlocks (none :: rest)
          { s with retries := s.retries + 1, iters := s.iters + 1,
                   sleeps := s.sleeps ++ [2 ^ (s.retries + 1)] }
      | some data :: rest =>
        if hsh data ∈ s.window then
          process_blocks hsh K maxBlocks (some data :: rest)
            { s with retries := s.retries + 1, iters := s.iters + 1 }
        else
          match parse_block data with
          | some p =>
            process_blocks hsh K maxBlocks rest
              { s with entries := s.entries ++ [mkEntry p (hsh data)],
                       window := dequeAppend K s.window (hsh data),
                       block_count := s.block_count + 1,
                       retries := 0, iters := s.iters + 1 }
          | none =>
            process_blocks hsh K maxBlocks rest { s with iters := s.iters + 1 }
    else s
termination_by rs s => (rs.length, 3 - s.retries)
decreasing_by
  all_goals simp_wf
  · exact Prod.Lex.right _ (by omega)
  · exact Prod.Lex.right _ (by omega)
  · exact Prod.Lex.left _ _ (by omega)
  · exact Prod.Lex.left _ _ (by omega)

/-- One full walk as performed by run_extraction: the store's read
outcomes, newest first, processed from a fresh extractor state. -/
def process_blocks_run (hsh : List Nat → List Nat)
    (store : List ReadRec) : WalkState :=
  process_blocks hsh CONFIG_hash_window CONFIG_max_blocks store initState

/-- The row the walker emits for record bytes d under digest function hsh.
Total wrapper around parse_block; only ever applied below to records known
to parse successfully (the fallback row is unreachable there). -/
def entry_of (hsh : List Nat → List Nat) (d : List Nat) : Entry :=
  match parse_block d with
  | some p => mkEntry p (hsh d)
  | none => mkEntry
      { nonce := 0, major_version := 0, minor_version := 0,
        timestamp := 0, size := 0 } (hsh d)

/-- The window always holds exactly the digests of the most recent K
emitted rows (all of them while fewer than K exist). -/
def WInv (K : Nat) (s : WalkState) : Prop :=
  s.window = (s.entries.map Entry.block_hash).drop (s.entries.length - K)

/-- Any two emitted rows with the same digest are more than K emission
positions apart. -/
def DInv (K : Nat) (s : WalkState) : Prop :=
  ∀ (i j : Nat) (ei ej : Entry), i < j →
    s.entries[i]? = some ei → s.entries[j]? = some ej →
    ei.block_hash = ej.block_hash → K < j - i

/-! ## Ledger Writer (NonceExtractor.write_csv and create_backup) -/

/-- One CSV row: the header row or an entry row. -/
inductive Row where
  | header : Row
  | entry : Entry → Row
deriving Repr, DecidableEq

/-- The filesystem state the writer touches: the rows of the ledger file
(none when the file does not exist) and the backup files created so far,
as name-content pairs.  Directories stay implicit: os.makedirs only
ensures they exist, and the ledger and every backup live in the same
directory, the dirname of CONFIG csv_output. -/
structure LedgerFS where
  ledger : Option (List Row)
  backups : List (String × List Row)
deriving Repr, DecidableEq

/-- Basename of CONFIG csv_output, the ledger file this module writes. -/
def ledger_basename : String := "datanonce_training_data.csv"

/-- The backup name built by create_backup: a fixed stem followed by the
timestamp of datetime.now, passed in here as the string ts. -/
def backupFileName (ts : String) : String :=
  "nonce_training_data.backup_" ++ ts ++ ".csv"

/-- Modelled from the spec: the spec names backup files with the ledger
file's own basename (stem datanonce_training_data) followed by the backup
suffix.  Stated only for comparison with backupFileName, the name the
source actually builds. -/
def spec_backup_name (ts : String) : String :=
  "datanonce_training_data.backup_" ++ ts ++ ".csv"

/-- NonceExtractor.create_backup at wall-clock timestamp ts: if the ledger
file exists it is renamed into the backup file, so the ledger ceases to
exist and a backup holding its content appears; otherwise only a warning
is printed and nothing changes. -/
def create_backup (ts : String) (fs : LedgerFS) : LedgerFS :=
  match fs.ledger with
  | some content =>
    { ledger := none,
      backups := fs.backups ++ [(backupFileName ts, content)] }
  | none => fs

/-- NonceExtractor.write_csv.  failAppend injects the I/O failure path:
the exception is modeled as raised at the earliest failure point, at
directory creation or open, before any row reaches the file; partial
write states are outside the model.  The except branch calls
create_backup and falls through; the function body has no return
statement, so Python hands None back to the caller on success and on
failure alike — the second component is that returned value. -/
def write_csv (failAppend : Bool) (ts : String) (fs : LedgerFS)
    (entries : List Entry) : LedgerFS × Option Unit :=
  if failAppend then
    (create_backup ts fs, none)
  else
    match fs.ledger with
    | none =>
      ({ fs with ledger := some (Row.header :: entries.map Row.entry) }, none)
    | some rows =>
      ({ fs with ledger := some (rows ++ entries.map Row.entry) }, none)

/-! ## Lifecycle Scheduler (NonceExtractor.main_loop) -/

/-- NonceExtractor.main_loop as a timed transition function.  One cycle
runs run_extraction (runDur time units) and then sleeps the full CONFIG
update_interval; nothing in the loop body consults the running flag
before the sleep completes, so each executed cycle advances the clock by
runDur + update_interval unconditionally.  A termination signal arriving
at time sigAt sets the flag (graceful_shutdown), which the loop observes
only at its head, at the times the recursion visits.  fuel bounds how
many cycles are examined; the value returned is the time at which the
while condition is first found false. -/
def main_loop (sigAt runDur : Nat) : Nat → Nat → Nat
  | 0, t => t
  | fuel + 1, t =>
    if sigAt ≤ t then t
    else main_loop sigAt runDur fuel (t + runDur + CONFIG_update_interval)

/-! ## Concrete stores used to exercise the walker -/

/-- Four little-endian bytes of i. -/
def toLE4 (i : Nat) : List Nat :=
  [i % 256, i / 256 % 256, i / 65536 % 256, i / 16777216 % 256]

/-- A 47-byte record with major version 1 (nonce offset 43), zero filler
and the little-endian bytes of i in the nonce field. -/
def mkRec (i : Nat) : List Nat :=
  1 :: (List.replicate 42 0 ++ toLE4 i)

/-- A store, newest record first, whose first and 1002nd reads carry
identical bytes while the 1000 reads between them are pairwise distinct:
enough distinct records to evict the first digest from a window of
capacity 1000 before the duplicate arrives. -/
def dupStore : List ReadRec :=
  ((0 :: List.range' 1 1000).map mkRec).map some ++ [some (mkRec 0)]

/-! ## Step lemmas for the walker -/

/-- A false loop condition stops the walk immediately. -/
theorem pb_stop (hsh : List Nat → List Nat) (K M : Nat) (rs : List ReadRec)
    (s : WalkState)
    (h : ¬(s.running = true ∧ s.block_count < M ∧ s.retries < 3)) :
    process_blocks hsh K M rs s = s := by
  rw [process_blocks.eq_def]
  simp [h]

/-- The walk over an exhausted position list returns the state. -/
theorem pb_nil (hsh : List Nat → List Nat) (K M : Nat) (s : WalkState) :
    process_blocks hsh K M [] s = s := by
  rw [process_blocks.eq_def]
  simp

/-- A raising read: retries and iters increment, the backoff sleep of
2 ^ retries time units is logged, and the cursor stays in place. -/
theorem pb_err_step (hsh : List Nat → List Nat) (K M : Nat)
    (rest : List ReadRec) (s : WalkState)
    (hr : s.running = true) (hb : s.block_count < M) (hlt : s.retries < 3) :
    process_blocks hsh K M (none :: rest) s =
      process_blocks hsh K M (none :: rest)
        { s with retries := s.retries + 1, iters := s.iters + 1,
                 sleeps := s.sleeps ++ [2 ^ (s.retries + 1)] } := by
  conv_lhs => rw [process_blocks.eq_def]
  simp [hr, hb, hlt]

/-- A record whose digest is already in the window: retries and iters
increment and the cursor stays in place, so the same record is re-read. -/
theorem pb_dup_step (hsh : List Nat → List Nat) (K M : Nat)
    (data : List Nat) (rest : List ReadRec) (s : WalkState)
    (hr : s.running = true) (hb : s.block_count < M) (hlt : s.retries < 3)
    (hmem : hsh data ∈ s.window) :
    process_blocks hsh K M (some data :: rest) s =
      process_blocks hsh K M (some data :: rest)
        { s with retries := s.retries + 1, iters := s.iters + 1 } := by
  conv_lhs => rw [process_blocks.eq_def]
  simp [hr, hb, hlt, hmem]

/-- A fresh record that parses: a row is emitted, the digest enters the
window, block_count increments, retries resets and the cursor advances. -/
theorem pb_emit_step (hsh : List Nat → List Nat) (K M : Nat)
    (data : List Nat) (rest : List ReadRec) (s : WalkState) (p : ParsedBlock)
    (hr : s.running = true) (hb : s.block_count < M) (hlt : s.retries < 3)
    (hmem : hsh data ∉ s.window) (hp : parse_block data = some p) :
    process_blocks hsh K M (some data :: rest) s =
      process_blocks hsh K M rest
        { s with entries := s.entries ++ [mkEntry p (hsh data)],
                 window := dequeAppend K s.window (hsh data),
                 block_count := s.block_count + 1,
                 retries := 0, iters := s.iters + 1 } := by
  conv_lhs => rw [process_blocks.eq_def]
  simp [hr, hb, hlt, hmem, hp]

/-- A fresh record that fails to parse is reported and skipped: nothing but
iters changes and the cursor advances, so the run continues. -/
theorem pb_corrupt_step (hsh : List Nat → List Nat) (K M : Nat)
    (data : List Nat) (rest : List ReadRec) (s : WalkState)
    (hr : s.running = true) (hb : s.block_count < M) (hlt : s.retries < 3)
    (hmem : hsh data ∉ s.window) (hp : parse_block data = none) :
    process_blocks hsh K M (some data :: rest) s =
      process_blocks hsh K M rest { s with iters := s.iters + 1 } := by
  conv_lhs => rw [process_blocks.eq_def]
  simp [hr, hb, hlt, hmem, hp]

/-- Auxiliary induction for the duplicate-hash drain: once the current
record's digest is in the window the walk re-reads it until the shared
counter reaches 3, leaving everything else unchanged. -/
theorem pb_dup_drain_aux (hsh : List Nat → List Nat) (K M : Nat)
    (data : List Nat) (rest : List ReadRec) :
    ∀ (n : Nat) (s : WalkState), s.running = true → s.block_count < M →
      s.retries < 3 → 3 - s.retries = n → hsh data ∈ s.window →
      process_blocks hsh K M (some data :: rest) s =
        { s with retries := 3, iters := s.iters + n } := by
  intro n
  induction n with
  | zero => intro s _ _ hlt hn _; omega
  | succ m ih =>
    intro s hr hb hlt hn hmem
    rw [pb_dup_step hsh K M data rest s hr hb hlt hmem]
    by_cases hlt2 : s.retries + 1 < 3
    · rw [ih { s with retries := s.retries + 1, iters := s.iters + 1 }
        hr hb hlt2 (by simp; omega) hmem]
      simp
      omega
    · rw [pb_stop _ _ _ _ _ (by simp; omega)]
      simp
      omega

/-- Auxiliary induction for the error drain: an always-raising read at the
current position is retried, with exponential backoff sleeps, until the
shared counter reaches 3; nothing else changes. -/
theorem pb_err_drain_aux (hsh : List Nat → List Nat) (K M : Nat)
    (rest : List ReadRec) :
    ∀ (n : Nat) (s : WalkState), s.running = true → s.block_count < M →
      s.retries < 3 → 3 - s.retries = n →
      process_blocks hsh K M (none :: rest) s =
        { s with retries := 3, iters := s.iters + n,
                 sleeps := s.sleeps ++
                   (List.range' (s.retries + 1) n).map (fun k => 2 ^ k) } := by
  intro n
  induction n with
  | zero => intro s _ _ hlt hn; omega
  | succ m ih =>
    intro s hr hb hlt hn
    rw [pb_err_step hsh K M rest s hr hb hlt]
    by_cases hlt2 : s.retries + 1 < 3
    · have h2 := ih { s with retries := s.retries + 1, iters := s.iters + 1, sleeps := s.sleeps ++ [2 ^ (s.retries + 1)] } hr hb hlt2 (by simp; omega)
      rw [h2]
      simp only [List.range'_succ, List.map_cons, List.append_assoc,
        List.singleton_append]
      have hit : s.iters + 1 + m = s.iters + (m + 1) := by omega
      rw [hit]
    · rw [pb_stop _ _ _ _ _ (by simp; omega)]
      have hm : m = 0 := by omega
      subst hm
      simp [List.range'_succ]
      omega

/-! ## Window lemmas -/

/-- Everything in the window after an append was already present or is the
new element. -/
theorem dequeAppend_subset {α : Type} (K : Nat) (w : List α) (x y : α)
    (h : y ∈ dequeAppend K w x) : y ∈ w ∨ y = x := by
  unfold dequeAppend at h
  have h2 := List.mem_of_mem_drop h
  simpa using h2

/-- Closed form of repeated appends into a capacity-K deque: the result is
the tail of the concatenation, keeping the most recent K elements. -/
theorem foldl_dequeAppend {α : Type} (K : Nat) :
    ∀ (hs : List α) (w : List α), w.length ≤ K →
      hs.foldl (dequeAppend K) w = (w ++ hs).drop (w.length + hs.length - K) := by
  intro hs
  induction hs with
  | nil =>
    intro w hw
    simp [Nat.sub_eq_zero_of_le hw]
  | cons x t ih =>
    intro w hw
    rw [List.foldl_cons]
    have hlen : (dequeAppend K w x).length = w.length + 1 - (w.length + 1 - K) := by
      simp [dequeAppend]
    by_cases hK : w.length + 1 ≤ K
    · have hx : dequeAppend K w x = w ++ [x] := by
        simp [dequeAppend, Nat.sub_eq_zero_of_le hK]
      rw [hx, ih (w ++ [x]) (by simp; omega)]
      simp [List.append_assoc]
      congr 1
      omega
    · have haK : w.length = K := by omega
      have hx : dequeAppend K w x = (w ++ [x]).drop 1 := by
        simp [dequeAppend, haK]
      have hw' : ((w ++ [x]).drop 1).length = w.length := by simp
      rw [hx, ih ((w ++ [x]).drop 1) (by rw [hw']; omega)]
      rw [hw']
      have h1 : (w ++ [x]).drop 1 ++ t = ((w ++ [x]) ++ t).drop 1 :=
        (List.drop_append_of_le_length (by simp)).symm
      rw [h1, List.drop_drop]
      have h2 : (w ++ [x]) ++ t = w ++ x :: t := by simp
      rw [h2]
      congr 1
      simp only [List.length_drop, List.length_append, List.length_cons,
        List.length_singleton, List.length_nil]
      omega

/-- A run over a block of records that all parse, are pairwise distinct
under the digest and are absent from the window emits one row per record,
in traversal order, and then continues with the rest of the store. -/
theorem pb_fresh_run (hsh : List Nat → List Nat) (K M : Nat)
    (ds : List (List Nat)) (rest : List ReadRec) :
    ∀ s : WalkState, s.running = true → s.retries = 0 →
      s.block_count + ds.length ≤ M →
      (∀ d ∈ ds, (parse_block d).isSome) →
      (∀ d ∈ ds, hsh d ∉ s.window) →
      (ds.map hsh).Nodup →
      process_blocks hsh K M (ds.map some ++ rest) s =
        process_blocks hsh K M rest
          { s with window := (ds.map hsh).foldl (dequeAppend K) s.window,
                   entries := s.entries ++ ds.map (entry_of hsh),
                   block_count := s.block_count + ds.length,
                   iters := s.iters + ds.length } := by
  induction ds with
  | nil =>
    intro s _ _ _ _ _ _
    simp
  | cons d t ih =>
    intro s hr h0 hcnt hparse hfresh hnd
    simp only [List.length_cons] at hcnt
    obtain ⟨p, hp⟩ := Option.isSome_iff_exists.mp (hparse d (by simp))
    simp only [List.map_cons, List.cons_append]
    rw [pb_emit_step hsh K M d (t.map some ++ rest) s p hr (by omega)
      (by omega) (hfresh d (by simp)) hp]
    simp only [List.map_cons, List.nodup_cons] at hnd
    have hfresh2 : ∀ d2 ∈ t,
        hsh d2 ∉ dequeAppend K s.window (hsh d) := by
      intro d2 hd2 hmem
      rcases dequeAppend_subset K s.window (hsh d) (hsh d2) hmem with hin | heq
      · exact hfresh d2 (by simp [hd2]) hin
      · exact hnd.1 (heq ▸ List.mem_map_of_mem hsh hd2)
    have hih := ih ⟨dequeAppend K s.window (hsh d), s.entries ++ [mkEntry p (hsh d)], s.block_count + 1, 0, s.running, s.iters + 1, s.sleeps⟩ (by simpa using hr) rfl (by simp; omega) (fun d2 hd2 => hparse d2 (by simp [hd2])) hfresh2 hnd.2
    rw [hih]
    congr 1
    simp only [List.foldl_cons, List.map_cons, List.length_cons,
      List.append_assoc, List.singleton_append]
    have he : entry_of hsh d = mkEntry p (hsh d) := by
      simp [entry_of, hp]
    rw [he]
    have h1 : s.block_count + 1 + t.length = s.block_count + (t.length + 1) := by
      omega
    have h2 : s.iters + 1 + t.length = s.iters + (t.length + 1) := by
      omega
    rw [h1, h2, h0]

/-! ## Run invariants: the window mirrors the recent entries, and equal
digests among emitted rows are far apart -/

/-- Appending one digest to a window satisfying the mirror invariant keeps
the mirror invariant. -/
theorem WInv_emit (K : Nat) (s : WalkState) (e : Entry)
    (bc it : Nat) (hW : WInv K s) :
    WInv K ⟨dequeAppend K s.window e.block_hash, s.entries ++ [e], bc, 0,
      s.running, it, s.sleeps⟩ := by
  unfold WInv at *
  show dequeAppend K s.window e.block_hash =
    ((s.entries ++ [e]).map Entry.block_hash).drop ((s.entries ++ [e]).length - K)
  rw [hW]
  unfold dequeAppend
  simp only [List.map_append, List.length_append, List.map_cons, List.map_nil,
    List.length_cons, List.length_nil, List.length_drop, List.length_map]
  rw [← List.drop_append_of_le_length (by simp)]
  rw [List.drop_drop]
  congr 1
  omega

/-- Emitting a row whose digest is absent from the window preserves the
distance invariant, given the window mirrors the recent entries. -/
theorem DInv_emit (K : Nat) (s : WalkState) (e : Entry)
    (bc it : Nat) (hW : WInv K s) (hD : DInv K s)
    (hnew : e.block_hash ∉ s.window) :
    DInv K ⟨dequeAppend K s.window e.block_hash, s.entries ++ [e], bc, 0,
      s.running, it, s.sleeps⟩ := by
  intro i j ei ej hij hi hj hhash
  show K < j - i
  have hi2 : (s.entries ++ [e])[i]? = some ei := hi
  have hj2 : (s.entries ++ [e])[j]? = some ej := hj
  have hjlt : j < s.entries.length + 1 := by
    by_contra hge
    rw [List.getElem?_append_right (by omega)] at hj2
    rw [List.getElem?_eq_none (by simp; omega)] at hj2
    exact Option.noConfusion hj2
  by_cases hjn : j < s.entries.length
  · rw [List.getElem?_append_left (by omega)] at hi2
    rw [List.getElem?_append_left hjn] at hj2
    exact hD i j ei ej hij hi2 hj2 hhash
  · have hjeq : j = s.entries.length := by omega
    have hje : ej = e := by
      subst hjeq
      rw [List.getElem?_concat_length] at hj2
      exact (Option.some_inj.mp hj2).symm
    have hilt : i < s.entries.length := by omega
    rw [List.getElem?_append_left hilt] at hi2
    by_contra hle
    have hik : s.entries.length - K ≤ i := by omega
    have hmem : ei.block_hash ∈ s.window := by
      rw [hW]
      apply List.getElem?_mem (n := i - (s.entries.length - K))
      rw [List.getElem?_drop]
      have hieq : s.entries.length - K + (i - (s.entries.length - K)) = i := by
        omega
      rw [hieq, List.getElem?_map, hi2]
      rfl
    rw [hhash, hje] at hmem
    exact hnew hmem

/-- Both invariants are preserved by an entire walk. -/
theorem pb_inv (hsh : List Nat → List Nat) (K M : Nat) :
    ∀ (rs : List ReadRec) (s : WalkState), WInv K s → DInv K s →
      WInv K (process_blocks hsh K M rs s) ∧
      DInv K (process_blocks hsh K M rs s) := by
  intro rs s
  induction rs, s using process_blocks.induct hsh K M with
  | case1 s hc =>
    intro hW hD
    rw [pb_nil]
    exact ⟨hW, hD⟩
  | case2 s hc rest ih =>
    intro hW hD
    rw [pb_err_step hsh K M rest s hc.1 hc.2.1 hc.2.2]
    exact ih hW hD
  | case3 s hc data rest hmem ih =>
    intro hW hD
    rw [pb_dup_step hsh K M data rest s hc.1 hc.2.1 hc.2.2 hmem]
    exact ih hW hD
  | case4 s hc data rest hmem p hp ih =>
    intro hW hD
    rw [pb_emit_step hsh K M data rest s p hc.1 hc.2.1 hc.2.2 hmem hp]
    exact ih (WInv_emit K s (mkEntry p (hsh data)) _ _ hW)
      (DInv_emit K s (mkEntry p (hsh data)) _ _ hW hD hmem)
  | case5 s hc data rest hmem hp ih =>
    intro hW hD
    rw [pb_corrupt_step hsh K M data rest s hc.1 hc.2.1 hc.2.2 hmem hp]
    exact ih hW hD
  | case6 rs s hc =>
    intro hW hD
    rw [pb_stop hsh K M rs s hc]
    exact ⟨hW, hD⟩

/-! ## Header Decoder lemmas -/

/-- Every offset the table can return is at least the default 43. -/
theorem getOffset_ge (v : Nat) : 43 ≤ getOffset v := by
  unfold getOffset nonce_offsets nonce_offsets_default
  split_ifs <;> simp

/-- A record long enough for the nonce read decodes successfully, and each
field is read from the documented position. -/
theorem parse_block_success (data : List Nat)
    (h : getOffset (data.getD 0 0) + 4 ≤ data.length) :
    parse_block data = some
      { nonce := le32 (data.getD (getOffset (data.getD 0 0)) 0)
          (data.getD (getOffset (data.getD 0 0) + 1) 0)
          (data.getD (getOffset (data.getD 0 0) + 2) 0)
          (data.getD (getOffset (data.getD 0 0) + 3) 0),
        major_version := data.getD 0 0,
        minor_version := data.getD 1 0,
        timestamp := le32 (data.getD 2 0) (data.getD 3 0)
          (data.getD 4 0) (data.getD 5 0),
        size := data.length } := by
  have h43 := getOffset_ge (data.getD 0 0)
  unfold parse_block
  rw [if_neg (by omega), if_neg (by omega), if_neg (by omega)]

/-- A record shorter than nonce offset plus four bytes fails to decode. -/
theorem parse_block_short (data : List Nat)
    (h : data.length < getOffset (data.getD 0 0) + 4) :
    parse_block data = none := by
  unfold parse_block
  by_cases h1 : data.length < 1
  · rw [if_pos h1]
  · rw [if_neg h1, if_pos h]

/-! ## Facts about the concrete records mkRec -/

theorem mkRec_length (i : Nat) : (mkRec i).length = 47 := by
  simp [mkRec, toLE4]

theorem mkRec_getD_zero (i : Nat) : (mkRec i).getD 0 0 = 1 := rfl

theorem mkRec_parses (i : Nat) : (parse_block (mkRec i)).isSome := by
  rw [parse_block_success (mkRec i)
    (by rw [mkRec_getD_zero, mkRec_length]; decide)]
  rfl

theorem mkRec_drop (i : Nat) : (mkRec i).drop 43 = toLE4 i := by
  unfold mkRec
  rfl

theorem toLE4_inj (i j : Nat) (hi : i < 4294967296) (hj : j < 4294967296)
    (h : toLE4 i = toLE4 j) : i = j := by
  unfold toLE4 at h
  simp at h
  omega

theorem mkRec_inj (i j : Nat) (hi : i < 4294967296) (hj : j < 4294967296)
    (h : mkRec i = mkRec j) : i = j := by
  apply toLE4_inj i j hi hj
  rw [← mkRec_drop, ← mkRec_drop, h]

theorem prefix_indices_bound : ∀ x ∈ 0 :: List.range' 1 1000, x < 4294967296 := by
  intro x hx
  rcases List.mem_cons.mp hx with h0 | hr
  · omega
  · have := List.mem_range'_1.mp hr
    omega

theorem prefixRecs_nodup : ((0 :: List.range' 1 1000).map mkRec).Nodup := by
  apply List.Nodup.map_on
  · intro x hx y hy hxy
    exact mkRec_inj x y (prefix_indices_bound x hx) (prefix_indices_bound y hy) hxy
  · rw [List.nodup_cons]
    constructor
    · intro h0
      have := List.mem_range'_1.mp h0
      omega
    · exact List.nodup_range' 1 1000 1 Nat.one_pos

/-- The digest the walker stores for a row built by entry_of is the
record's digest, whether or not the record parsed. -/
theorem entry_of_block_hash (hsh : List Nat → List Nat) (d : List Nat) :
    (entry_of hsh d).block_hash = hsh d := by
  unfold entry_of
  split <;> rfl

/-! ## The walk over dupStore -/

/-- Walking dupStore emits one row per store position: the 1001 prefix
records are all fresh, the first digest is evicted from the window after
the 1000 distinct middle records, and the final duplicate record is
therefore emitted again. -/
theorem dupStore_entries :
    (process_blocks_run (fun d => d) dupStore).entries =
      ((0 :: List.range' 1 1000).map mkRec).map (entry_of (fun d => d)) ++
        [entry_of (fun d => d) (mkRec 0)] := by
  have hPlen : (((0 :: List.range' 1 1000)).map mkRec).length = 1001 := by
    simp
  have hparseP : ∀ d ∈ (0 :: List.range' 1 1000).map mkRec,
      (parse_block d).isSome := by
    intro d hd
    obtain ⟨i, _, rfl⟩ := List.mem_map.mp hd
    exact mkRec_parses i
  have hnd : (((0 :: List.range' 1 1000).map mkRec).map
      (fun d : List Nat => d)).Nodup := by
    rw [List.map_id']
    exact prefixRecs_nodup
  have h1 := pb_fresh_run (fun d => d) CONFIG_hash_window CONFIG_max_blocks
    ((0 :: List.range' 1 1000).map mkRec) [some (mkRec 0)] initState rfl rfl
    (by rw [hPlen]; decide) hparseP
    (by intro d _ hmem; exact absurd hmem (List.not_mem_nil _)) hnd
  have hwin : ((((0 :: List.range' 1 1000)).map mkRec).map
        (fun d : List Nat => d)).foldl
        (dequeAppend CONFIG_hash_window) initState.window =
      (List.range' 1 1000).map mkRec := by
    rw [foldl_dequeAppend CONFIG_hash_window _ initState.window (by decide)]
    rw [List.map_id']
    have hidx : initState.window.length +
        ((0 :: List.range' 1 1000).map mkRec).length - CONFIG_hash_window = 1 := by
      rw [hPlen]
      simp [initState, CONFIG_hash_window]
    rw [hidx]
    have hnil : initState.window ++ (0 :: List.range' 1 1000).map mkRec =
        mkRec 0 :: (List.range' 1 1000).map mkRec := by
      simp [initState]
    rw [hnil]
    rw [List.drop_one, List.tail_cons]
  have hfreshlast : (fun d : List Nat => d) (mkRec 0) ∉
      (List.range' 1 1000).map mkRec := by
    intro hmem
    obtain ⟨x, hx, hxe⟩ := List.mem_map.mp hmem
    have hx1 := (List.mem_range'_1.mp hx).1
    have := mkRec_inj x 0 (by have := List.mem_range'_1.mp hx; omega)
      (by omega) hxe
    omega
  obtain ⟨p, hp⟩ := Option.isSome_iff_exists.mp (mkRec_parses 0)
  unfold process_blocks_run dupStore
  rw [h1]
  rw [pb_emit_step (fun d => d) CONFIG_hash_window CONFIG_max_blocks
    (mkRec 0) [] _ p (by rfl) (by simp only [hPlen, initState]; decide)
    (by decide) (by rw [hwin]; exact hfreshlast) hp]
  rw [pb_nil]
  dsimp only [initState]
  rw [List.nil_append]
  have hlast : entry_of (fun d : List Nat => d) (mkRec 0) = mkEntry p (mkRec 0) := by
    unfold entry_of
    rw [hp]
  rw [hlast]

/-! ## Claim theorems -/

/-- C4: for every record whose major-version byte (byte 0) is a key of the
nonce-offset table, parse_block uses the mapped offset (1 to 43, 2 to 47,
3 to 51, 4 to 55); an unmapped major version uses the table's default
offset; and a sufficiently long record decodes with nonce equal to the
4-byte little-endian unsigned integer at the mapped offset, minorVersion
read from byte 1 and blockTimestamp as a 4-byte little-endian unsigned
integer from bytes 2 through 5. -/
theorem C4_header_decoder :
    (getOffset 1 = 43 ∧ getOffset 2 = 47 ∧ getOffset 3 = 51 ∧
      getOffset 4 = 55) ∧
    (∀ v : Nat, v ≠ 1 → v ≠ 2 → v ≠ 3 → v ≠ 4 →
      getOffset v = nonce_offsets_default) ∧
    (∀ data : List Nat, getOffset (data.getD 0 0) + 4 ≤ data.length →
      parse_block data = some
        { nonce := le32 (data.getD (getOffset (data.getD 0 0)) 0)
            (data.getD (getOffset (data.getD 0 0) + 1) 0)
            (data.getD (getOffset (data.getD 0 0) + 2) 0)
            (data.getD (getOffset (data.getD 0 0) + 3) 0),
          major_version := data.getD 0 0,
          minor_version := data.getD 1 0,
          timestamp := le32 (data.getD 2 0) (data.getD 3 0)
            (data.getD 4 0) (data.getD 5 0),
          size := data.length }) := by
  refine ⟨⟨rfl, rfl, rfl, rfl⟩, ?_, parse_block_success⟩
  intro v h1 h2 h3 h4
  unfold getOffset nonce_offsets
  rw [if_neg h1, if_neg h2, if_neg h3, if_neg h4]
  rfl

/-- Witness for C4 at major version 9 (unmapped) and the concrete record
mkRec 7 (major version 1, 47 bytes). -/
theorem C4_header_decoder_witness :
    getOffset 9 = nonce_offsets_default ∧
    parse_block (mkRec 7) = some
      { nonce := le32 ((mkRec 7).getD (getOffset ((mkRec 7).getD 0 0)) 0)
          ((mkRec 7).getD (getOffset ((mkRec 7).getD 0 0) + 1) 0)
          ((mkRec 7).getD (getOffset ((mkRec 7).getD 0 0) + 2) 0)
          ((mkRec 7).getD (getOffset ((mkRec 7).getD 0 0) + 3) 0),
        major_version := (mkRec 7).getD 0 0,
        minor_version := (mkRec 7).getD 1 0,
        timestamp := le32 ((mkRec 7).getD 2 0) ((mkRec 7).getD 3 0)
          ((mkRec 7).getD 4 0) ((mkRec 7).getD 5 0),
        size := (mkRec 7).length } :=
  ⟨C4_header_decoder.2.1 9 (by decide) (by decide) (by decide) (by decide),
   C4_header_decoder.2.2 (mkRec 7) (by decide)⟩

/-- C5: a record shorter than the minimum length its reads require always
decodes to the error result (None) rather than reading out of bounds, and
the walker skips such a record and continues the run with the cursor
advanced, nothing but the iteration counter changing. -/
theorem C5_short_records :
    (∀ data : List Nat, data.length < getOffset (data.getD 0 0) + 4 →
      parse_block data = none) ∧
    (∀ (hsh : List Nat → List Nat) (K M : Nat) (data : List Nat)
      (rest : List ReadRec) (s : WalkState),
      s.running = true → s.block_count < M → s.retries < 3 →
      hsh data ∉ s.window → parse_block data = none →
      process_blocks hsh K M (some data :: rest) s =
        process_blocks hsh K M rest { s with iters := s.iters + 1 }) :=
  ⟨parse_block_short, pb_corrupt_step⟩

/-- Witness for C5 at the empty record and at the one-byte record [9]. -/
theorem C5_short_records_witness :
    parse_block [] = none ∧
    process_blocks (fun d => d) CONFIG_hash_window CONFIG_max_blocks
        [some [9], some (mkRec 1)] initState =
      process_blocks (fun d => d) CONFIG_hash_window CONFIG_max_blocks
        [some (mkRec 1)] { initState with iters := initState.iters + 1 } :=
  ⟨C5_short_records.1 [] (by decide),
   C5_short_records.2 (fun d => d) CONFIG_hash_window CONFIG_max_blocks [9]
     [some (mkRec 1)] initState rfl (by decide) (by decide) (by decide)
     (C5_short_records.1 [9] (by decide))⟩

/-- C6: after N distinct insertions into a capacity-K window with N above
K, membership is false for each of the oldest N minus K hashes and true
for each of the most recent K: FIFO eviction of the least recently
inserted element. -/
theorem C6_fifo_window (K : Nat) (hs : List (List Nat))
    (hnd : hs.Nodup) (hK : K < hs.length) :
    (∀ x ∈ hs.take (hs.length - K), x ∉ hs.foldl (dequeAppend K) []) ∧
    (∀ x ∈ hs.drop (hs.length - K), x ∈ hs.foldl (dequeAppend K) []) := by
  have hfold : hs.foldl (dequeAppend K) [] = hs.drop (hs.length - K) := by
    have h := foldl_dequeAppend K hs [] (by simp)
    simpa using h
  rw [hfold]
  exact ⟨fun x hxt hxd => (List.disjoint_take_drop hnd le_rfl) hxt hxd,
    fun x hx => hx⟩

/-- Witness for C6: four distinct hashes into a window of capacity 2. -/
theorem C6_fifo_window_witness :
    ([[0], [1], [2], [3]] : List (List Nat)).Nodup ∧ 2 < 4 ∧
    ((∀ x ∈ ([[0], [1], [2], [3]] : List (List Nat)).take 2,
        x ∉ ([[0], [1], [2], [3]] : List (List Nat)).foldl (dequeAppend 2) []) ∧
     (∀ x ∈ ([[0], [1], [2], [3]] : List (List Nat)).drop 2,
        x ∈ ([[0], [1], [2], [3]] : List (List Nat)).foldl (dequeAppend 2) [])) :=
  ⟨by decide, by decide,
   by simpa using C6_fifo_window 2 [[0], [1], [2], [3]] (by decide) (by decide)⟩

/-- C2: when the current record's digest is already in the window, the
cursor is not advanced before the next iteration, so the same record is
re-read; no further row is emitted after the first duplicate encounter and
the walk terminates within at most 3 further iterations, exactly when the
shared skip counter reaches 3.  The final state differs from the state at
the encounter only in the counter (3) and in 3 - retries more executed
iterations; in particular the emitted entries are unchanged. -/
theorem C2_duplicate_rereads_and_stops (hsh : List Nat → List Nat)
    (K M : Nat) (data : List Nat) (rest : List ReadRec) (s : WalkState)
    (hr : s.running = true) (hb : s.block_count < M) (hlt : s.retries < 3)
    (hmem : hsh data ∈ s.window) :
    process_blocks hsh K M (some data :: rest) s =
      { s with retries := 3, iters := s.iters + (3 - s.retries) } :=
  pb_dup_drain_aux hsh K M data rest (3 - s.retries) s hr hb hlt rfl hmem

/-- Witness for C2: a window already holding the digest of the current
record; the walk stops after 3 iterations with no entries. -/
theorem C2_duplicate_witness :
    process_blocks (fun d => d) CONFIG_hash_window CONFIG_max_blocks
        [some [5], some [6]] ⟨[[5]], [], 0, 0, true, 0, []⟩ =
      ⟨[[5]], [], 0, 3, true, 3, []⟩ := by
  have h := C2_duplicate_rereads_and_stops (fun d => d) CONFIG_hash_window
    CONFIG_max_blocks [5] [some [6]] ⟨[[5]], [], 0, 0, true, 0, []⟩ rfl
    (by decide) (by decide) (by decide)
  simpa using h

/-- C3 as written is false at an always-failing store: the loop retries
while the shared counter is below the literal 3, so exactly 3 read
attempts occur (with backoff sleeps 2, 4 and 8 time units), not the
CONFIG max_retries value, which is 5 and is read nowhere in the module. -/
theorem C3_counterexample :
    (process_blocks_run (fun d => d) [none]).iters = 3 ∧
    (process_blocks_run (fun d => d) [none]).sleeps = [2, 4, 8] ∧
    (process_blocks_run (fun d => d) [none]).iters ≠ CONFIG_max_retries := by
  have h := pb_err_drain_aux (fun d => d) CONFIG_hash_window
    CONFIG_max_blocks [] 3 initState rfl (by decide) (by decide) rfl
  unfold process_blocks_run
  rw [h]
  decide

/-- C3 amended: a store-level read failure is retried with backoff sleeps
of 2 ^ attempt time units, attempt starting at 1, but only until the
shared counter (which also counts duplicate skips) reaches the hardcoded
bound 3 — not the configured max_retries value; the aborted run returns
the entries accumulated so far. -/
theorem C3_retry_bound (hsh : List Nat → List Nat) (K M : Nat)
    (rest : List ReadRec) (s : WalkState)
    (hr : s.running = true) (hb : s.block_count < M) (h0 : s.retries = 0) :
    process_blocks hsh K M (none :: rest) s =
      { s with retries := 3, iters := s.iters + 3,
               sleeps := s.sleeps ++ [2, 4, 8] } ∧
    (process_blocks hsh K M (none :: rest) s).entries = s.entries := by
  have h := pb_err_drain_aux hsh K M rest 3 s hr hb (by omega) (by omega)
  have hmap : (List.range' (s.retries + 1) 3).map (fun k => 2 ^ k) =
      [2, 4, 8] := by
    rw [h0]
    decide
  refine ⟨?_, ?_⟩
  · rw [h, hmap]
  · rw [h]

/-- Witness for C3 amended: the always-failing single-position store from
a fresh run. -/
theorem C3_retry_bound_witness :
    process_blocks (fun d => d) CONFIG_hash_window CONFIG_max_blocks [none]
        initState = ⟨[], [], 0, 3, true, 3, [2, 4, 8]⟩ ∧
    (process_blocks (fun d => d) CONFIG_hash_window CONFIG_max_blocks [none]
        initState).entries = [] := by
  have h := C3_retry_bound (fun d => d) CONFIG_hash_window CONFIG_max_blocks
    [] initState rfl (by decide) rfl
  exact ⟨by simpa using h.1, by simpa using h.2⟩

/-- C1 amended: within one run, any two emitted rows that share a digest
are more than hash_window (1000) emission positions apart — so a run
emitting at most hash_window + 1 rows has pairwise distinct digests, but
pairwise distinctness over an arbitrary store fails once the window has
evicted the earlier digest (see the counterexample). -/
theorem C1_window_dedup (hsh : List Nat → List Nat)
    (store : List ReadRec) (i j : Nat) (ei ej : Entry) (hij : i < j)
    (hi : (process_blocks_run hsh store).entries[i]? = some ei)
    (hj : (process_blocks_run hsh store).entries[j]? = some ej)
    (hh : ei.block_hash = ej.block_hash) :
    CONFIG_hash_window < j - i := by
  have h := pb_inv hsh CONFIG_hash_window CONFIG_max_blocks store initState
    (by unfold WInv initState; simp)
    (by intro a b ea eb hab ha; simp [initState] at ha)
  exact h.2 i j ei ej hij hi hj hh

/-- C1 as written is false: walking dupStore — 1002 successful reads, the
first and last bearing identical bytes with 1000 pairwise distinct records
between them — emits 1002 rows whose digests are not pairwise distinct,
because the window of capacity 1000 evicted the first digest before the
duplicate record arrived. -/
theorem C1_counterexample :
    ¬ ((process_blocks_run (fun d => d) dupStore).entries.map
        Entry.block_hash).Nodup := by
  rw [dupStore_entries]
  intro hnd
  have hdig : ((((0 :: List.range' 1 1000).map mkRec).map
        (entry_of (fun d => d)) ++ [entry_of (fun d => d) (mkRec 0)]).map
        Entry.block_hash) =
      (0 :: List.range' 1 1000).map mkRec ++ [mkRec 0] := by
    rw [List.map_append, List.map_map]
    have hcong : ∀ d ∈ (0 :: List.range' 1 1000).map mkRec,
        (Entry.block_hash ∘ entry_of fun d : List Nat => d) d = d := by
      intro d _
      exact entry_of_block_hash (fun d => d) d
    rw [List.map_congr_left hcong, List.map_id']
    congr 1
  rw [hdig] at hnd
  rw [List.map_cons, List.cons_append] at hnd
  exact (List.nodup_cons.mp hnd).1 (by simp)

/-- Witness for C1 amended, at the duplicate pair of the counterexample
store: positions 0 and 1001 carry the same digest and are 1001 apart. -/
theorem C1_window_dedup_witness :
    (0 : Nat) < 1001 ∧
    (process_blocks_run (fun d => d) dupStore).entries[0]? =
      some (entry_of (fun d => d) (mkRec 0)) ∧
    (process_blocks_run (fun d => d) dupStore).entries[1001]? =
      some (entry_of (fun d => d) (mkRec 0)) ∧
    CONFIG_hash_window < 1001 - 0 := by
  have hi : (process_blocks_run (fun d => d) dupStore).entries[0]? =
      some (entry_of (fun d => d) (mkRec 0)) := by
    rw [dupStore_entries]
    have hlen : (0 : Nat) < (((0 :: List.range' 1 1000).map mkRec).map
        (entry_of (fun d => d))).length := by
      simp
    rw [List.getElem?_append_left hlen]
    rw [List.map_cons, List.map_cons]
    exact List.getElem?_cons_zero
  have hj : (process_blocks_run (fun d => d) dupStore).entries[1001]? =
      some (entry_of (fun d => d) (mkRec 0)) := by
    rw [dupStore_entries]
    have hlen : (((0 :: List.range' 1 1000).map mkRec).map
        (entry_of (fun d => d))).length ≤ 1001 := by
      simp
    rw [List.getElem?_append_right hlen]
    simp
  exact ⟨by decide, hi, hj,
    C1_window_dedup (fun d => d) dupStore 0 1001 _ _ (by decide) hi hj rfl⟩

/-- C7: writing to a non-existent ledger file creates it with exactly one
header row followed by the given entries in the order supplied; a second
write appends its entries in order without writing a second header row
(no entry row ever equals the header row). -/
theorem C7_ledger_writer (ts1 ts2 : String) (es1 es2 : List Entry) :
    (write_csv false ts1 ⟨none, []⟩ es1).1.ledger =
      some (Row.header :: es1.map Row.entry) ∧
    (write_csv false ts2 (write_csv false ts1 ⟨none, []⟩ es1).1 es2).1.ledger =
      some (Row.header :: (es1 ++ es2).map Row.entry) ∧
    (∀ r ∈ (es1 ++ es2).map Row.entry, r ≠ Row.header) := by
  refine ⟨rfl, ?_, ?_⟩
  · show (some ((Row.header :: es1.map Row.entry) ++ es2.map Row.entry) :
      Option (List Row)) = some (Row.header :: (es1 ++ es2).map Row.entry)
    simp
  · intro r hr
    obtain ⟨e, _, rfl⟩ := List.mem_map.mp hr
    exact fun h => Row.noConfusion h

/-- C8 as written is false: the backup file name is built from the fixed
stem nonce_training_data, not from the ledger file's own basename, whose
stem is datanonce_training_data. -/
theorem C8_counterexample :
    backupFileName "20260101_120000" ≠ spec_backup_name "20260101_120000" := by
  decide

/-- C8 amended: on a write failure with an existing ledger, the ledger
file is renamed into nonce_training_data.backup_<timestamp>.csv — the
fixed stem, in the ledger's own directory — and backup files are created
only on the failure path: a successful write adds none. -/
theorem C8_backup_on_failure (ts : String) (fs : LedgerFS) (es : List Entry)
    (c : List Row) (hc : fs.ledger = some c) :
    (write_csv true ts fs es).1.ledger = none ∧
    (write_csv true ts fs es).1.backups =
      fs.backups ++ [(backupFileName ts, c)] ∧
    (write_csv false ts fs es).1.backups = fs.backups := by
  simp [write_csv, create_backup, hc]

/-- Witness for C8 amended at a concrete one-row ledger. -/
theorem C8_backup_on_failure_witness :
    (write_csv true "20260101_120000" ⟨some [Row.header], []⟩ []).1.ledger =
      none ∧
    (write_csv true "20260101_120000" ⟨some [Row.header], []⟩ []).1.backups =
      [] ++ [(backupFileName "20260101_120000", [Row.header])] ∧
    (write_csv false "20260101_120000" ⟨some [Row.header], []⟩ []).1.backups =
      [] :=
  C8_backup_on_failure "20260101_120000" ⟨some [Row.header], []⟩ []
    [Row.header] rfl

/-- C9 as written is false: at this concrete input the value returned on
the failure path equals the value returned on the success path (Python
None both times), so the caller cannot distinguish a failed write from a
successful one. -/
theorem C9_counterexample :
    (write_csv true "20260101_120000" ⟨some [Row.header], []⟩ []).2 =
      (write_csv false "20260101_120000" ⟨some [Row.header], []⟩ []).2 := rfl

/-- C9 amended: an I/O failure during a write triggers the backup
procedure once, the batch is not written and not retried — but no result
is surfaced: write_csv has no return statement, so the caller receives
None whether the write failed or succeeded, and proceeds identically. -/
theorem C9_no_result_surfaced (ts : String) (fs : LedgerFS)
    (es : List Entry) :
    (write_csv true ts fs es).1 = create_backup ts fs ∧
    (write_csv true ts fs es).2 = none ∧
    (write_csv false ts fs es).2 = none := by
  refine ⟨rfl, rfl, ?_⟩
  obtain ⟨lg, bk⟩ := fs
  cases lg <;> rfl

/-- C10 as written is false in its interruptible-sleep part: with
cancellation signalled at time 1, just as a zero-cost run enters its
sleep, the scheduler exits only at time 3600 — the full update_interval
elapses between the signal and the loop observing it. -/
theorem C10_counterexample :
    main_loop 1 0 2 0 = CONFIG_update_interval ∧
    1 + 60 < main_loop 1 0 2 0 := by
  decide

/-- C10 amended: the cancellation flag is observed at the walker's
per-iteration check (a cleared flag stops the walk at once, state
untouched) and at the scheduler's per-cycle check, so a signal during a
cycle stops the loop at the next cycle boundary; but the inter-run sleep
is not interruptible, so that boundary arrives only after the full run
duration plus update_interval. -/
theorem C10_cancellation (hsh : List Nat → List Nat) (K M : Nat) :
    (∀ (rs : List ReadRec) (s : WalkState), s.running = false →
      process_blocks hsh K M rs s = s) ∧
    (∀ sigAt d t fuel : Nat, sigAt ≤ t → main_loop sigAt d fuel t = t) ∧
    (∀ sigAt d t fuel : Nat, t < sigAt →
      sigAt ≤ t + d + CONFIG_update_interval →
      main_loop sigAt d (fuel + 1) t = t + d + CONFIG_update_interval) := by
  refine ⟨?_, ?_, ?_⟩
  · intro rs s hrf
    apply pb_stop
    simp [hrf]
  · intro sigAt d t fuel hle
    cases fuel with
    | zero => rfl
    | succ m =>
      unfold main_loop
      rw [if_pos hle]
  · intro sigAt d t fuel hlt hnext
    unfold main_loop
    rw [if_neg (by omega)]
    cases fuel with
    | zero => rfl
    | succ m =>
      unfold main_loop
      rw [if_pos hnext]

/-- Witness for C10 amended: a cleared flag stops a walk over a nonempty
store; the scheduler exits immediately once the signal time has passed,
and a signal inside a cycle is honored at the next cycle boundary. -/
theorem C10_cancellation_witness :
    process_blocks (fun d => d) CONFIG_hash_window CONFIG_max_blocks
        [some [1]] ⟨[], [], 0, 0, false, 0, []⟩ =
      ⟨[], [], 0, 0, false, 0, []⟩ ∧
    main_loop 5 0 7 5 = 5 ∧
    main_loop 7 2 4 0 = 0 + 2 + CONFIG_update_interval := by
  have h := C10_cancellation (fun d => d) CONFIG_hash_window CONFIG_max_blocks
  exact ⟨h.1 [some [1]] ⟨[], [], 0, 0, false, 0, []⟩ rfl,
    h.2.1 5 0 5 7 (by decide), h.2.2 7 2 0 3 (by decide) (by decide)⟩

/-- Witness for C7: two concrete writes into a fresh ledger. -/
theorem C7_ledger_writer_witness :
    (write_csv false "t1" ⟨none, []⟩
        [⟨1, 2, 3, 4, 5, [6], 0, 0⟩]).1.ledger =
      some [Row.header, Row.entry ⟨1, 2, 3, 4, 5, [6], 0, 0⟩] ∧
    (write_csv false "t2" (write_csv false "t1" ⟨none, []⟩
        [⟨1, 2, 3, 4, 5, [6], 0, 0⟩]).1
        [⟨7, 8, 9, 10, 11, [12], 0, 0⟩]).1.ledger =
      some [Row.header, Row.entry ⟨1, 2, 3, 4, 5, [6], 0, 0⟩,
        Row.entry ⟨7, 8, 9, 10, 11, [12], 0, 0⟩] ∧
    Row.entry ⟨1, 2, 3, 4, 5, [6], 0, 0⟩ ≠ Row.header := by
  have h := C7_ledger_writer "t1" "t2" [⟨1, 2, 3, 4, 5, [6], 0, 0⟩]
    [⟨7, 8, 9, 10, 11, [12], 0, 0⟩]
  exact ⟨by simpa using h.1, by simpa using h.2.1,
    h.2.2 (Row.entry ⟨1, 2, 3, 4, 5, [6], 0, 0⟩) (by simp)⟩

/-- Witness for C9 amended at a concrete one-row ledger. -/
theorem C9_no_result_surfaced_witness :
    (write_csv true "t" ⟨some [Row.header], []⟩ []).1 =
      create_backup "t" ⟨some [Row.header], []⟩ ∧
    (write_csv true "t" ⟨some [Row.header], []⟩ []).2 = none ∧
    (write_csv false "t" ⟨some [Row.header], []⟩ []).2 = none :=
  C9_no_result_surfaced "t" ⟨some [Row.header], []⟩ []
